import Mathlib

/-!
Shallow embedding of the dictate-app speech worker
(`src/dictate_app/speech_worker.py` and `src/dictate_app/config.py`).

Python strings are modelled as `List Char` so that whitespace trimming
(Python `str.strip`) can be reasoned about directly.  Confidence scores
and audio levels (Python floats used only as opaque ordered values) are
modelled as `ℚ`; the logarithmic audio-level normalization is modelled
over `ℝ`.  The command loop is modelled as a sequential transition
system; the boolean attached to each command models whether the
`thread.join(timeout=5.0)` performed by `_stop_session` completed within
the bound (`true`) or timed out with the worker thread still running
(`false`) — the worker's response-stream wait has no such bound, so a
timeout is a real behaviour of the code.
-/

namespace DictateApp

/-- Whitespace test used by Python `str.strip`. -/
def isWS (c : Char) : Bool := c.isWhitespace

/-- Left part of Python `str.strip`: drop leading whitespace. -/
def trimLeft (l : List Char) : List Char := l.dropWhile isWS

/-- Right part of Python `str.strip`: drop trailing whitespace. -/
def trimRight (l : List Char) : List Char := (l.reverse.dropWhile isWS).reverse

/-- Python `str.strip`: drop whitespace from both ends. -/
def trim (l : List Char) : List Char := trimRight (trimLeft l)

/-- Protocol events written to stdout by `_emit` (speech_worker.py).
`interim` carries the rounded normalized audio level that
`_run_session` attaches from `rms_holder`. -/
inductive Ev
  | ready
  | interim (text : List Char) (audio_level : ℚ)
  | final (text : List Char)
  | error (message : String)
  | stopped
deriving DecidableEq

/-- One alternative of a streaming recognition result: a transcript and
a confidence score.  `_run_session` only ever reads
`alternatives[0].transcript`; the confidence field is part of the
engine's documented interface (spec section 6: alternatives are
text plus confidence). -/
structure SpeechRecognitionAlternative where
  transcript : List Char
  confidence : ℚ
deriving DecidableEq

/-- One result of a streaming response: a list of alternatives and the
finality flag, as consumed by `_run_session` lines 120-129. -/
structure StreamingRecognitionResult where
  alternatives : List SpeechRecognitionAlternative
  is_final : Bool
deriving DecidableEq

/-- One response from the engine's response stream. -/
structure StreamingRecognizeResponse where
  results : List StreamingRecognitionResult
deriving DecidableEq

/-- Body of the `for result in response.results` loop of `_run_session`
(lines 120-129): results with no alternatives are skipped; a final
result immediately emits a `final` event with the stripped transcript of
`alternatives[0]` when that is non-empty; a non-final result appends the
raw transcript of `alternatives[0]` to `interim_parts`.  The
accumulator is (events emitted so far, interim_parts). -/
def finalStep (acc : List Ev × List (List Char)) (result : StreamingRecognitionResult) :
    List Ev × List (List Char) :=
  match result.alternatives with
  | [] => acc
  | alt :: _ =>
    if result.is_final then
      if trim alt.transcript = [] then acc
      else (acc.1 ++ [Ev.final (trim alt.transcript)], acc.2)
    else (acc.1, acc.2 ++ [alt.transcript])

/-- Events emitted by `_run_session` for one response (lines 118-138):
the per-result loop above, then — when `interim_parts` is non-empty and
the concatenation `combined` is non-empty — a single `interim` event
carrying the current normalized audio level `lvl`. -/
def processResponse (resp : StreamingRecognizeResponse) (lvl : ℚ) : List Ev :=
  let acc := resp.results.foldl finalStep ([], [])
  acc.1 ++
    (if acc.2 = [] then []
     else if acc.2.flatten = [] then []
     else [Ev.interim acc.2.flatten lvl])

/-- Declarative view of the final events of a response: for each final
result that has alternatives, the stripped transcript of the first
alternative, kept only when non-empty. -/
def finalsOf (results : List StreamingRecognitionResult) : List Ev :=
  results.filterMap (fun r =>
    match r.alternatives with
    | [] => none
    | alt :: _ =>
      if r.is_final then
        if trim alt.transcript = [] then none
        else some (Ev.final (trim alt.transcript))
      else none)

/-- Declarative view of the interim parts of a response: the raw first
alternative transcript of each non-final result that has alternatives,
in result order. -/
def partsOf (results : List StreamingRecognitionResult) : List (List Char) :=
  results.filterMap (fun r =>
    match r.alternatives with
    | [] => none
    | alt :: _ => if r.is_final then none else some alt.transcript)

/-- The amended form of claim C1: final events use the FIRST alternative
(the engine orders alternatives, the code never compares confidence
scores), trimmed and non-empty; the non-final first-alternative
transcripts are concatenated in result order and emitted as one
`interim` event with the current audio level, only when the
concatenation is non-empty. -/
def amendedProcessResponse (resp : StreamingRecognizeResponse) (lvl : ℚ) : List Ev :=
  finalsOf resp.results ++
    (if (partsOf resp.results).flatten = [] then []
     else [Ev.interim (partsOf resp.results).flatten lvl])

/-- Follows the claim's words only (claim C1): the alternative with the
highest confidence score.  The source code never performs this
selection. -/
def bestByConfidence : List SpeechRecognitionAlternative → Option SpeechRecognitionAlternative
  | [] => none
  | a :: rest => some (rest.foldl (fun b x => if b.confidence < x.confidence then x else b) a)

/-- Follows the claim's words only (claim C1): like the code's response
translation but selecting the highest-confidence alternative for final
results. -/
def claimProcessResponse (resp : StreamingRecognizeResponse) (lvl : ℚ) : List Ev :=
  let finals := resp.results.filterMap (fun r =>
    if r.is_final then
      match bestByConfidence r.alternatives with
      | none => none
      | some a =>
        if trim a.transcript = [] then none
        else some (Ev.final (trim a.transcript))
    else none)
  finals ++
    (if (partsOf resp.results).flatten = [] then []
     else [Ev.interim (partsOf resp.results).flatten lvl])

/-- Count of `error` events in a trace. -/
def countError (evs : List Ev) : Nat :=
  (evs.filter (fun e => match e with | Ev.error _ => true | _ => false)).length

/-- Count of `stopped` events in a trace. -/
def countStopped (evs : List Ev) : Nat :=
  (evs.filter (fun e => match e with | Ev.stopped => true | _ => false)).length

/-- One whole run of `_run_session` (lines 80-146).  `openResult` is the
outcome of `pa.open` (lines 87-94) — this call sits OUTSIDE the
`try` block, so a failure there escapes the worker thread: no event is
emitted and the thread dies with an unhandled exception (second
component `true`).  When the open succeeds, the `try` body consumes the
response stream: `resps` are the responses actually delivered, each
paired with the audio level current at its emission time, and
`streamErr` is the exception, if any, that ended the stream
(`client.streaming_recognize` or iteration failure); the `except`
clause then emits exactly one `error` event with its description.
A stream that ends without exception (graceful cancellation) emits
nothing further. -/
def runSession (openResult : Except String Unit)
    (resps : List (StreamingRecognizeResponse × ℚ)) (streamErr : Option String) :
    List Ev × Bool :=
  match openResult with
  | .error _ => ([], true)
  | .ok _ =>
    ((resps.map (fun p => processResponse p.1 p.2)).flatten ++
      (match streamErr with | some m => [Ev.error m] | none => []), false)

/-- A session worker thread as tracked by the loop model.  The thread
receives the SHARED mutable `config` object
(`args=(config, pa, client, stop_event)`, line 194) and reads
`config.language` only when it builds its recognition config (line 100,
after `pa.open` returns), not at spawn time.  `startLanguage` is
specification bookkeeping only: the value `main` assigned into
`config.language` (line 189) when this worker was spawned.
`langCaptured` models the deferred line-100 read: `none` until the
thread performs it (the `Act.capture` action), then the value of
`config.language` AT THAT MOMENT — which, for a worker abandoned by a
timed-out join, may differ from `startLanguage`.  `queue` holds what
`_stop_session` pushed into the worker's `audio_queue` (`none` is the
sentinel; microphone chunks come from outside the command loop and are
not modelled). -/
structure Worker where
  id : Nat
  startLanguage : String
  langCaptured : Option String
  stopSignalled : Bool
  alive : Bool
  queue : List (Option Unit)
deriving DecidableEq

/-- State of `main`'s command loop: the mutable `config.language`, the
four configuration fields `main` never assigns, the current session
slot (`stop_event`/`session_thread` pair, by worker id), and every
worker thread ever spawned. -/
structure LoopState where
  language : String
  sample_rate : Nat
  audio_channels : Nat
  chunk_duration_ms : Nat
  model : String
  slot : Option Nat
  workers : List Worker
  nextId : Nat
deriving DecidableEq

/-- Parsed commands.  `other` covers blank lines, invalid JSON and
unknown `type` values — all are skipped without emitting an event. -/
inductive Cmd
  | start (language : Option String)
  | stop
  | other
deriving DecidableEq

/-- Effect of `_stop_session(stop_event, audio_queue, thread)` on the
worker `i` (lines 149-157): sets the stop event, enqueues the `None`
sentinel when an audio queue was passed (`queuePassed`), and joins with
`timeout=5.0`; `joinOk` tells whether the worker terminated within that
bound — when it did not, the thread is abandoned, still alive. -/
def signalWorker (i : Nat) (queuePassed joinOk : Bool) (w : Worker) : Worker :=
  if w.id = i then
    { w with stopSignalled := true,
             queue := if queuePassed then w.queue ++ [none] else w.queue,
             alive := w.alive && !joinOk }
  else w

/-- The `_stop_session` call as `main` performs it on the current slot.
Both call sites in `main` (lines 186 and 200) pass `None` for the audio
queue — the queue is local to `_run_session` and `main` holds no
reference to it — so they use `queuePassed = false`. -/
def stopSessionCall (queuePassed joinOk : Bool) (s : LoopState) : LoopState :=
  match s.slot with
  | none => s
  | some i => { s with workers := s.workers.map (signalWorker i queuePassed joinOk) }

/-- One iteration of `main`'s command loop (lines 170-203), given the
already-parsed command.  `start`: stop the previous session
(`_stop_session(stop_event, None, session_thread)`), read the language
with the current `config.language` as default, assign it back into
`config.language`, then spawn a fresh worker and make it the slot.
The spawned thread is handed the SHARED `config` object and has not yet
read `config.language`: the new worker starts with
`langCaptured = none` (the read is the separate `Act.capture` action),
while `startLanguage` merely records what this `start` assigned.
`stop`: stop the previous session the same way, clear the slot
unconditionally, and emit `stopped`.  Anything else: no effect, no
event. -/
def stepCmd (joinOk : Bool) (s : LoopState) : Cmd → LoopState × List Ev
  | Cmd.other => (s, [])
  | Cmd.start lang? =>
    let s1 := stopSessionCall false joinOk s
    let lang := lang?.getD s1.language
    ({ s1 with language := lang,
               slot := some s1.nextId,
               workers := s1.workers ++ [⟨s1.nextId, lang, none, false, true, []⟩],
               nextId := s1.nextId + 1 }, [])
  | Cmd.stop =>
    let s1 := stopSessionCall false joinOk s
    ({ s1 with slot := none }, [Ev.stopped])

/-- Run the command loop over a list of parsed commands, each paired
with the join-completion oracle for any `_stop_session` join it
performs.  Returns the final state and the concatenated event trace. -/
def run (s : LoopState) : List (Cmd × Bool) → LoopState × List Ev
  | [] => (s, [])
  | p :: rest =>
    ((run (stepCmd p.2 s p.1).1 rest).1,
     (stepCmd p.2 s p.1).2 ++ (run (stepCmd p.2 s p.1).1 rest).2)

/-- Loop state right after `main` constructs `Config()` and emits
`ready`: the `Config` defaults of config.py lines 34-41, no session. -/
def initState : LoopState :=
  { language := "en-US", sample_rate := 16000, audio_channels := 1,
    chunk_duration_ms := 100, model := "latest_long",
    slot := none, workers := [], nextId := 0 }

/-- Worker `i` executes lines 96-107 of `_run_session`: it reads the
shared `config.language` (line 100) — whatever value it holds at that
moment — into its recognition config.  Only a live thread that has not
yet performed the read can do this, and each thread does it once. -/
def captureWorker (i : Nat) (lang : String) (w : Worker) : Worker :=
  if w.id = i ∧ w.alive = true ∧ w.langCaptured = none then
    { w with langCaptured := some lang }
  else w

/-- Interleaved actions of the process: either the loop processes one
command (with the join oracle for any `_stop_session` it performs), or
a session worker thread reaches line 100 and reads the shared
`config.language`.  The scheduling of captures relative to commands is
unconstrained, as in the program. -/
inductive Act
  | cmd (c : Cmd) (joinOk : Bool)
  | capture (i : Nat)
deriving DecidableEq

/-- The join oracle of an action (`true` for capture actions, which
perform no join). -/
def joinOkOf : Act → Bool
  | Act.cmd _ jo => jo
  | Act.capture _ => true

/-- One interleaved step. -/
def stepAct (s : LoopState) : Act → LoopState × List Ev
  | Act.cmd c jo => stepCmd jo s c
  | Act.capture i =>
    ({ s with workers := s.workers.map (captureWorker i s.language) }, [])

/-- Run an interleaving of commands and worker line-100 reads. -/
def runActs (s : LoopState) : List Act → LoopState × List Ev
  | [] => (s, [])
  | a :: rest =>
    ((runActs (stepAct s a).1 rest).1,
     (stepAct s a).2 ++ (runActs (stepAct s a).1 rest).2)

/-- Number of worker threads still running. -/
def countAlive (ws : List Worker) : Nat := (ws.filter (fun w => w.alive)).length

/-- Number of `stop` commands in an input sequence. -/
def countStopCmds (cmds : List (Cmd × Bool)) : Nat :=
  (cmds.filter (fun p => match p.1 with | Cmd.stop => true | _ => false)).length

/-- The `thread.join` timeout used by `_stop_session` (line 157). -/
def stopJoinTimeout : ℚ := 5

/-- Loop invariant used for claim C3: every still-running worker thread
is the one referenced by the current session slot. -/
def Inv (s : LoopState) : Prop :=
  ∀ w ∈ s.workers, w.alive = true → s.slot = some w.id

/-- Invariant used for claim C9, meaningful on runs where every join
completes: every live worker is the slot's worker and was spawned by
the `start` that set the current `config.language`; and every language
a worker has read from the shared config is the one its own `start`
assigned. -/
def Inv9 (s : LoopState) : Prop :=
  (∀ w ∈ s.workers, w.alive = true → s.slot = some w.id ∧ w.startLanguage = s.language) ∧
  (∀ w ∈ s.workers, w.langCaptured = none ∨ w.langCaptured = some w.startLanguage)

/-- Outcome of `_resolve_gcp_project` (config.py lines 9-31) together
with the externally visible effects: whether the cache file was read,
whether the `gcloud` subprocess was invoked, and what, if anything, was
written to the cache file. -/
structure ResolveOutcome where
  project : List Char
  readCache : Bool
  ranGcloud : Bool
  cacheWrite : Option (List Char)
deriving DecidableEq

/-- The `gcloud` fallback of `_resolve_gcp_project` (lines 21-31):
`gcloudOut = some out` models a completed subprocess with stdout `out`;
`none` models `FileNotFoundError`/`TimeoutExpired`, after which the
function returns the empty string it still holds. -/
def gcloudResolve (gcloudOut : Option (List Char)) : ResolveOutcome :=
  match gcloudOut with
  | some out =>
    { project := trim out, readCache := true, ranGcloud := true,
      cacheWrite := if trim out = [] then none else some (trim out) }
  | none => { project := [], readCache := true, ranGcloud := true, cacheWrite := none }

/-- `_resolve_gcp_project` (config.py lines 9-31).  `env` is
`os.environ.get("GOOGLE_CLOUD_PROJECT", "")` (unset and empty
coincide); `cacheRead = some content` models a successful
`read_text()`, `none` an `OSError`. -/
def resolveGcpProject (env : List Char) (cacheRead : Option (List Char))
    (gcloudOut : Option (List Char)) : ResolveOutcome :=
  if env ≠ [] then
    { project := env, readCache := false, ranGcloud := false, cacheWrite := none }
  else
    match cacheRead with
    | some content =>
      if trim content ≠ [] then
        { project := trim content, readCache := true, ranGcloud := false, cacheWrite := none }
      else gcloudResolve gcloudOut
    | none => gcloudResolve gcloudOut

/-- `Config.__post_init__` (config.py lines 47-52): raises
`EnvironmentError` exactly when the resolved project is falsy, i.e. the
empty string. -/
def configRaises (project : List Char) : Bool := project.isEmpty

/-- The fatal startup message of `Config.__post_init__`. -/
def fatalMsg : String :=
  "Could not determine GCP project. Set GOOGLE_CLOUD_PROJECT or run: gcloud config set project <your-project>"

/-- `main` (speech_worker.py lines 160-203): construct `Config()` —
fatal before any event when the project resolves empty — then emit
`ready` once, then process stdin commands.  Worker-thread events
(interim/final/error) are emitted by pipelines spawned only from loop
steps, hence strictly after `ready`. -/
def mainRun (env : List Char) (cacheRead gcloudOut : Option (List Char))
    (cmds : List (Cmd × Bool)) : Except String (List Ev) :=
  if (resolveGcpProject env cacheRead gcloudOut).project = [] then
    Except.error fatalMsg
  else
    Except.ok (Ev.ready :: (run initState cmds).2)

/-- Two's-complement decoding of one 16-bit little-endian sample
(`struct.unpack` format code `h` on bytes `lo`, `hi`). -/
def toSigned (lo hi : Nat) : ℤ :=
  if lo + 256 * hi < 32768 then ((lo + 256 * hi : Nat) : ℤ)
  else ((lo + 256 * hi : Nat) : ℤ) - 65536

/-- Decode a byte string into 16-bit little-endian signed samples, one
per byte pair. -/
def decodeSamples : List Nat → List ℤ
  | lo :: hi :: rest => toSigned lo hi :: decodeSamples rest
  | _ => []

/-- Sum of squares as `_rms` computes it: `sum(s * s for s in samples)`. -/
def sumSquares (samples : List ℤ) : ℤ := samples.foldl (fun acc s => acc + s * s) 0

/-- `_rms` (speech_worker.py lines 42-47): `n = len(data) // 2`; when
`n == 0` the function returns `0.0` before unpacking; otherwise
`struct.unpack` requires exactly `2 * n` bytes, so an odd-length buffer
raises `struct.error` (modelled as `none`); otherwise the result is
`sqrt(sum(s * s) / n)` over the decoded samples. -/
noncomputable def rmsOf (data : List Nat) : Option ℝ :=
  if data.length / 2 = 0 then some 0
  else if data.length % 2 ≠ 0 then none
  else some (Real.sqrt ((sumSquares (decodeSamples data) : ℝ) / ((data.length / 2 : Nat) : ℝ)))

/-- `_normalize_rms` (speech_worker.py lines 50-53):
`0.0` when `rms < 1`, otherwise `min(1.0, log10(rms) / log10(5000))`. -/
noncomputable def normalizeRms (rms : ℝ) : ℝ :=
  if rms < 1 then 0 else min 1 (Real.logb 10 rms / Real.logb 10 5000)

/-! Lemmas about trimming. -/

theorem dropWhile_idem (p : Char → Bool) (l : List Char) :
    List.dropWhile p (List.dropWhile p l) = List.dropWhile p l := by
  induction l with
  | nil => rfl
  | cons a t ih =>
    by_cases h : p a
    · simp [List.dropWhile_cons, h, ih]
    · simp [List.dropWhile_cons, h]

theorem dropWhile_suffix_ex (p : Char → Bool) (l : List Char) :
    ∃ t, t ++ List.dropWhile p l = l := by
  induction l with
  | nil => exact ⟨[], rfl⟩
  | cons a t ih =>
    by_cases h : p a
    · obtain ⟨u, hu⟩ := ih
      exact ⟨a :: u, by simp [List.dropWhile_cons, h, hu]⟩
    · exact ⟨[], by simp [List.dropWhile_cons, h]⟩

theorem trimLeft_trimLeft (l : List Char) : trimLeft (trimLeft l) = trimLeft l :=
  dropWhile_idem isWS l

theorem trimRight_trimRight (l : List Char) : trimRight (trimRight l) = trimRight l := by
  simp [trimRight, List.reverse_reverse, dropWhile_idem]

theorem trimRight_prefix_ex (l : List Char) : ∃ t, trimRight l ++ t = l := by
  obtain ⟨u, hu⟩ := dropWhile_suffix_ex isWS l.reverse
  refine ⟨u.reverse, ?_⟩
  have h := congrArg List.reverse hu
  simpa [trimRight, List.reverse_append] using h

theorem trimLeft_trimRight_of_trimLeft (l : List Char) (h : trimLeft l = l) :
    trimLeft (trimRight l) = trimRight l := by
  cases hcase : trimRight l with
  | nil => rfl
  | cons b u =>
    obtain ⟨t, ht⟩ := trimRight_prefix_ex l
    rw [hcase] at ht
    have hl : l = b :: (u ++ t) := by rw [← ht]; simp
    have hb : isWS b = false := by
      by_contra hb
      rw [Bool.not_eq_false] at hb
      have h2 : trimLeft l = List.dropWhile isWS (u ++ t) := by
        rw [hl]; simp [trimLeft, List.dropWhile_cons, hb]
      rw [h] at h2
      have h3 : (List.dropWhile isWS (u ++ t)).length ≤ (u ++ t).length :=
        (List.dropWhile_sublist isWS).length_le
      have h4 := congrArg List.length h2
      rw [hl, List.length_cons] at h4
      omega
    simp [trimLeft, List.dropWhile_cons, hb]

theorem trim_trim (l : List Char) : trim (trim l) = trim l := by
  have h1 : trimLeft (trim l) = trim l :=
    trimLeft_trimRight_of_trimLeft (trimLeft l) (trimLeft_trimLeft l)
  show trimRight (trimLeft (trim l)) = trim l
  rw [h1]
  show trimRight (trimRight (trimLeft l)) = trim l
  rw [trimRight_trimRight]
  rfl

/-! The response translation loop (claims C1 and C2). -/

theorem foldl_finalStep (results : List StreamingRecognitionResult)
    (F : List Ev) (P : List (List Char)) :
    results.foldl finalStep (F, P) = (F ++ finalsOf results, P ++ partsOf results) := by
  induction results generalizing F P with
  | nil => simp [finalsOf, partsOf]
  | cons r rest ih =>
    rw [List.foldl_cons]
    cases halts : r.alternatives with
    | nil =>
      rw [show finalStep (F, P) r = (F, P) by simp [finalStep, halts]]
      rw [ih]
      simp [finalsOf, partsOf, List.filterMap_cons, halts]
    | cons alt others =>
      by_cases hfin : r.is_final
      · by_cases htr : trim alt.transcript = []
        · rw [show finalStep (F, P) r = (F, P) by simp [finalStep, halts, hfin, htr]]
          rw [ih]
          simp [finalsOf, partsOf, List.filterMap_cons, halts, hfin, htr]
        · rw [show finalStep (F, P) r = (F ++ [Ev.final (trim alt.transcript)], P) by
            simp [finalStep, halts, hfin, htr]]
          rw [ih]
          simp [finalsOf, partsOf, List.filterMap_cons, halts, hfin, htr]
      · rw [show finalStep (F, P) r = (F, P ++ [alt.transcript]) by
          simp [finalStep, halts, hfin]]
        rw [ih]
        simp [finalsOf, partsOf, List.filterMap_cons, halts, hfin]

theorem processResponse_eq (resp : StreamingRecognizeResponse) (lvl : ℚ) :
    processResponse resp lvl = amendedProcessResponse resp lvl := by
  unfold processResponse amendedProcessResponse
  rw [foldl_finalStep]
  simp only [List.nil_append]
  congr 1
  by_cases hp : partsOf resp.results = []
  · simp [hp]
  · simp [hp]

/-! Lemmas about the command loop model. -/

theorem stopSessionCall_none (qp jo : Bool) (s : LoopState) (h : s.slot = none) :
    stopSessionCall qp jo s = s := by
  unfold stopSessionCall; rw [h]

theorem stopSessionCall_some (qp jo : Bool) (s : LoopState) (i : Nat) (h : s.slot = some i) :
    stopSessionCall qp jo s
      = { s with workers := s.workers.map (signalWorker i qp jo) } := by
  unfold stopSessionCall; rw [h]

theorem signalWorker_startLanguage (i : Nat) (qp jo : Bool) (w : Worker) :
    (signalWorker i qp jo w).startLanguage = w.startLanguage := by
  unfold signalWorker; split <;> rfl

theorem signalWorker_langCaptured (i : Nat) (qp jo : Bool) (w : Worker) :
    (signalWorker i qp jo w).langCaptured = w.langCaptured := by
  unfold signalWorker; split <;> rfl

theorem signalWorker_id (i : Nat) (qp jo : Bool) (w : Worker) :
    (signalWorker i qp jo w).id = w.id := by
  unfold signalWorker; split <;> rfl

theorem signalWorker_queue_noPass (i : Nat) (jo : Bool) (w : Worker) :
    (signalWorker i false jo w).queue = w.queue := by
  unfold signalWorker; split <;> rfl

theorem map_queue_signalWorker (i : Nat) (jo : Bool) (ws : List Worker) :
    (ws.map (signalWorker i false jo)).map Worker.queue = ws.map Worker.queue := by
  induction ws with
  | nil => rfl
  | cons w t ih => simp [List.map_cons, ih, signalWorker_queue_noPass]

theorem captureWorker_id (i : Nat) (lang : String) (w : Worker) :
    (captureWorker i lang w).id = w.id := by
  unfold captureWorker; split <;> rfl

theorem captureWorker_alive (i : Nat) (lang : String) (w : Worker) :
    (captureWorker i lang w).alive = w.alive := by
  unfold captureWorker; split <;> rfl

theorem captureWorker_startLanguage (i : Nat) (lang : String) (w : Worker) :
    (captureWorker i lang w).startLanguage = w.startLanguage := by
  unfold captureWorker; split <;> rfl

theorem captureWorker_keeps_some (i : Nat) (lang : String) (w : Worker) (l : String)
    (h : w.langCaptured = some l) : (captureWorker i lang w).langCaptured = some l := by
  unfold captureWorker
  by_cases hcond : w.id = i ∧ w.alive = true ∧ w.langCaptured = none
  · rw [hcond.2.2] at h
    exact Option.noConfusion h
  · rw [if_neg hcond]
    exact h

theorem stopSessionCall_language (qp jo : Bool) (s : LoopState) :
    (stopSessionCall qp jo s).language = s.language := by
  unfold stopSessionCall; cases s.slot <;> rfl

theorem stopSessionCall_sample_rate (qp jo : Bool) (s : LoopState) :
    (stopSessionCall qp jo s).sample_rate = s.sample_rate := by
  unfold stopSessionCall; cases s.slot <;> rfl

theorem stopSessionCall_audio_channels (qp jo : Bool) (s : LoopState) :
    (stopSessionCall qp jo s).audio_channels = s.audio_channels := by
  unfold stopSessionCall; cases s.slot <;> rfl

theorem stopSessionCall_chunk_duration_ms (qp jo : Bool) (s : LoopState) :
    (stopSessionCall qp jo s).chunk_duration_ms = s.chunk_duration_ms := by
  unfold stopSessionCall; cases s.slot <;> rfl

theorem stopSessionCall_model (qp jo : Bool) (s : LoopState) :
    (stopSessionCall qp jo s).model = s.model := by
  unfold stopSessionCall; cases s.slot <;> rfl

theorem stopSessionCall_nextId (qp jo : Bool) (s : LoopState) :
    (stopSessionCall qp jo s).nextId = s.nextId := by
  unfold stopSessionCall; cases s.slot <;> rfl

theorem kill_all_dead (s : LoopState) (hInv : Inv s) (qp : Bool) :
    ∀ w ∈ (stopSessionCall qp true s).workers, w.alive = false := by
  intro w hw
  cases hslot : s.slot with
  | none =>
    rw [stopSessionCall_none qp true s hslot] at hw
    by_contra hal
    rw [Bool.not_eq_false] at hal
    have h2 := hInv w hw hal
    rw [hslot] at h2
    exact Option.noConfusion h2
  | some i =>
    rw [stopSessionCall_some qp true s i hslot] at hw
    rcases List.mem_map.mp hw with ⟨w0, hw0, rfl⟩
    by_cases hid : w0.id = i
    · simp [signalWorker, hid]
    · simp only [signalWorker, hid, if_false]
      by_contra hal
      rw [Bool.not_eq_false] at hal
      have h2 := hInv w0 hw0 hal
      rw [hslot] at h2
      exact hid (Option.some.inj h2).symm

theorem countAlive_eq_zero_iff (ws : List Worker) :
    countAlive ws = 0 ↔ ∀ w ∈ ws, w.alive = false := by
  simp [countAlive, List.length_eq_zero, List.filter_eq_nil_iff, Bool.not_eq_true]

theorem countAlive_append (ws vs : List Worker) :
    countAlive (ws ++ vs) = countAlive ws + countAlive vs := by
  simp [countAlive, List.filter_append]

theorem step_inv (s : LoopState) (c : Cmd)
    (h : countAlive s.workers ≤ 1 ∧ Inv s) :
    countAlive (stepCmd true s c).1.workers ≤ 1 ∧ Inv (stepCmd true s c).1 := by
  obtain ⟨hcount, hInv⟩ := h
  cases c with
  | other => exact ⟨hcount, hInv⟩
  | start lang? =>
    have hdead := kill_all_dead s hInv false
    simp only [stepCmd]
    constructor
    · rw [countAlive_append, (countAlive_eq_zero_iff _).mpr hdead]
      simp [countAlive]
    · intro w hw hal
      rcases List.mem_append.mp hw with h1 | h1
      · exact absurd hal (by simp [hdead w h1])
      · rcases List.mem_singleton.mp h1 with rfl
        rfl
  | stop =>
    have hdead := kill_all_dead s hInv false
    simp only [stepCmd]
    constructor
    · rw [(countAlive_eq_zero_iff _).mpr hdead]
      omega
    · intro w hw hal
      exact absurd hal (by simp [hdead w hw])

theorem run_inv (cmds : List (Cmd × Bool)) :
    ∀ s : LoopState, countAlive s.workers ≤ 1 ∧ Inv s →
      (∀ p ∈ cmds, p.2 = true) →
      countAlive (run s cmds).1.workers ≤ 1 := by
  induction cmds with
  | nil =>
    intro s h _
    simpa [run] using h.1
  | cons p rest ih =>
    intro s h hall
    obtain ⟨c, jo⟩ := p
    have hjo : jo = true := hall (c, jo) (List.mem_cons_self _ _)
    subst hjo
    simp only [run]
    exact ih _ (step_inv s c h) (fun q hq => hall q (List.mem_cons_of_mem _ hq))

theorem countStopped_append (a b : List Ev) :
    countStopped (a ++ b) = countStopped a + countStopped b := by
  simp [countStopped, List.filter_append]

theorem stepAct_inv9 (s : LoopState) (a : Act) (hjo : joinOkOf a = true)
    (h : Inv9 s) : Inv9 (stepAct s a).1 := by
  obtain ⟨h1, h2⟩ := h
  have hInv : Inv s := fun w hw hal => (h1 w hw hal).1
  cases a with
  | capture i =>
    constructor
    · intro w hw hal
      rcases List.mem_map.mp hw with ⟨w0, hw0, rfl⟩
      rw [captureWorker_alive] at hal
      have h3 := h1 w0 hw0 hal
      refine ⟨?_, ?_⟩
      · show s.slot = some (captureWorker i s.language w0).id
        rw [captureWorker_id]
        exact h3.1
      · show (captureWorker i s.language w0).startLanguage = s.language
        rw [captureWorker_startLanguage]
        exact h3.2
    · intro w hw
      rcases List.mem_map.mp hw with ⟨w0, hw0, rfl⟩
      by_cases hcond : w0.id = i ∧ w0.alive = true ∧ w0.langCaptured = none
      · right
        have h4 : (captureWorker i s.language w0).langCaptured = some s.language := by
          unfold captureWorker
          rw [if_pos hcond]
        rw [h4, captureWorker_startLanguage, (h1 w0 hw0 hcond.2.1).2]
      · have h4 : captureWorker i s.language w0 = w0 := by
          unfold captureWorker
          rw [if_neg hcond]
        rw [h4]
        exact h2 w0 hw0
  | cmd c jo =>
    have hjo' : jo = true := hjo
    subst hjo'
    cases c with
    | other => exact ⟨h1, h2⟩
    | stop =>
      have hdead := kill_all_dead s hInv false
      simp only [stepAct, stepCmd]
      constructor
      · intro w hw hal
        exact absurd hal (by simp [hdead w hw])
      · intro w hw
        cases hslot : s.slot with
        | none =>
          rw [stopSessionCall_none false true s hslot] at hw
          exact h2 w hw
        | some i =>
          rw [stopSessionCall_some false true s i hslot] at hw
          rcases List.mem_map.mp hw with ⟨w0, hw0, rfl⟩
          rw [signalWorker_langCaptured, signalWorker_startLanguage]
          exact h2 w0 hw0
    | start lang? =>
      have hdead := kill_all_dead s hInv false
      simp only [stepAct, stepCmd]
      constructor
      · intro w hw hal
        rcases List.mem_append.mp hw with hmem | hmem
        · exact absurd hal (by simp [hdead w hmem])
        · rcases List.mem_singleton.mp hmem with rfl
          exact ⟨rfl, rfl⟩
      · intro w hw
        rcases List.mem_append.mp hw with hmem | hmem
        · cases hslot : s.slot with
          | none =>
            rw [stopSessionCall_none false true s hslot] at hmem
            exact h2 w hmem
          | some i =>
            rw [stopSessionCall_some false true s i hslot] at hmem
            rcases List.mem_map.mp hmem with ⟨w0, hw0, rfl⟩
            rw [signalWorker_langCaptured, signalWorker_startLanguage]
            exact h2 w0 hw0
        · rcases List.mem_singleton.mp hmem with rfl
          left
          rfl

theorem runActs_inv9 (acts : List Act) :
    ∀ s : LoopState, Inv9 s → (∀ a ∈ acts, joinOkOf a = true) →
      Inv9 (runActs s acts).1 := by
  induction acts with
  | nil =>
    intro s h _
    simpa [runActs] using h
  | cons a rest ih =>
    intro s h hall
    simp only [runActs]
    exact ih _ (stepAct_inv9 s a (hall a (List.mem_cons_self _ _)) h)
      (fun b hb => hall b (List.mem_cons_of_mem _ hb))

/-! Lemmas about the session pipeline (claim C6). -/

theorem countError_append (a b : List Ev) :
    countError (a ++ b) = countError a + countError b := by
  simp [countError, List.filter_append]

theorem countError_eq_zero_iff (evs : List Ev) :
    countError evs = 0 ↔ ∀ e ∈ evs, ∀ m, e ≠ Ev.error m := by
  simp only [countError, List.length_eq_zero, List.filter_eq_nil_iff]
  constructor
  · intro h e he m hem
    have := h e he
    rw [hem] at this
    simp at this
  · intro h e he
    cases e with
    | error m => exact absurd rfl (h _ he m)
    | ready => simp
    | interim t l => simp
    | final t => simp
    | stopped => simp

theorem processResponse_no_error (resp : StreamingRecognizeResponse) (lvl : ℚ) :
    countError (processResponse resp lvl) = 0 := by
  rw [processResponse_eq]
  unfold amendedProcessResponse
  rw [countError_append]
  have h1 : countError (finalsOf resp.results) = 0 := by
    rw [countError_eq_zero_iff]
    intro e he m hem
    rcases List.mem_filterMap.mp he with ⟨r, _, heq⟩
    subst hem
    cases halts : r.alternatives with
    | nil => rw [halts] at heq; simp at heq
    | cons alt others =>
      rw [halts] at heq
      by_cases hfin : r.is_final
      · by_cases htr : trim alt.transcript = [] <;> simp [hfin, htr] at heq
      · simp [hfin] at heq
  have h2 : countError
      (if (partsOf resp.results).flatten = [] then []
       else [Ev.interim (partsOf resp.results).flatten lvl]) = 0 := by
    by_cases hj : (partsOf resp.results).flatten = [] <;> simp [hj, countError]
  omega

theorem flatten_no_error (resps : List (StreamingRecognizeResponse × ℚ)) :
    countError ((resps.map (fun p => processResponse p.1 p.2)).flatten) = 0 := by
  induction resps with
  | nil => simp [countError]
  | cons p rest ih =>
    simp only [List.map_cons, List.flatten_cons]
    rw [countError_append, processResponse_no_error, ih]

/-! Lemmas for the startup sequence (claim C7). -/

theorem ready_not_in_step (jo : Bool) (s : LoopState) (c : Cmd) :
    Ev.ready ∉ (stepCmd jo s c).2 := by
  cases c <;> simp [stepCmd]

theorem ready_not_in_run (cmds : List (Cmd × Bool)) :
    ∀ s : LoopState, Ev.ready ∉ (run s cmds).2 := by
  induction cmds with
  | nil => intro s; simp [run]
  | cons p rest ih =>
    intro s
    simp only [run, List.mem_append]
    push_neg
    exact ⟨ready_not_in_step p.2 s p.1, ih _⟩

/-! Lemmas for the audio-level metric (claim C8). -/

theorem sumSquares_acc (l : List ℤ) :
    ∀ acc : ℤ, l.foldl (fun a s => a + s * s) acc = acc + (l.map (fun s => s * s)).sum := by
  induction l with
  | nil => intro acc; simp
  | cons a t ih =>
    intro acc
    simp only [List.foldl_cons, List.map_cons, List.sum_cons, ih]
    ring

theorem sumSquares_eq (l : List ℤ) : sumSquares l = (l.map (fun s => s * s)).sum := by
  unfold sumSquares
  rw [sumSquares_acc]
  simp

theorem cast_sum_sq (l : List ℤ) :
    (((l.map (fun s => s * s)).sum : ℤ) : ℝ) = (l.map (fun s : ℤ => ((s : ℝ)) ^ 2)).sum := by
  induction l with
  | nil => simp
  | cons a t ih =>
    rw [List.map_cons, List.sum_cons, List.map_cons, List.sum_cons,
      Int.cast_add, Int.cast_mul, ih, pow_two]

theorem decodeSamples_length : ∀ data : List Nat, (decodeSamples data).length = data.length / 2
  | [] => rfl
  | [x] => by
    rw [show decodeSamples [x] = [] from rfl]
    norm_num
  | _ :: _ :: rest => by
    simp only [decodeSamples, List.length_cons, decodeSamples_length rest]
    omega

/-! Claim theorems. -/

/-- Claim C1, counterexample: the code emits the FIRST alternative's
transcript (`result.alternatives[0]`, line 123), not the alternative with
the highest confidence score.  On a response whose single final result
has alternatives `"a"` (confidence 0) and `"b"` (confidence 1) the code
emits `final "a"` while the claim's translation emits `final "b"`. -/
theorem claim1_counterexample :
    processResponse ⟨[⟨[⟨['a'], 0⟩, ⟨['b'], 1⟩], true⟩]⟩ 0 = [Ev.final ['a']] ∧
    claimProcessResponse ⟨[⟨[⟨['a'], 0⟩, ⟨['b'], 1⟩], true⟩]⟩ 0 = [Ev.final ['b']] ∧
    processResponse ⟨[⟨[⟨['a'], 0⟩, ⟨['b'], 1⟩], true⟩]⟩ 0
      ≠ claimProcessResponse ⟨[⟨[⟨['a'], 0⟩, ⟨['b'], 1⟩], true⟩]⟩ 0 :=
  ⟨by decide, by decide, by decide⟩

/-- Claim C1 (amended): for every response consumed from the stream, the
pipeline emits, for each finalized result with alternatives, a `Final`
event whose text is the FIRST alternative's transcript, trimmed, only if
non-empty; and the first-alternative transcripts of all non-final
results, concatenated in result order, as a single `Interim` event
carrying the current normalized audio level, only if the concatenation
is non-empty. -/
theorem claim1_amended (resp : StreamingRecognizeResponse) (lvl : ℚ) :
    processResponse resp lvl = amendedProcessResponse resp lvl :=
  processResponse_eq resp lvl

/-- Claim C2, counterexample: an `interim` event whose text is a single
space is emitted (the code checks `if combined:`—non-empty—but never
strips interim text), and that text is empty after trimming. -/
theorem claim2_counterexample :
    processResponse ⟨[⟨[⟨[' '], 1⟩], false⟩]⟩ 0 = [Ev.interim [' '] 0] ∧
    trim [' '] = [] :=
  ⟨by decide, by decide⟩

/-- Claim C2 (amended): every `Final` event's text is non-empty and
already trimmed (hence non-empty after trimming); every `Interim`
event's text is non-empty, but may consist only of whitespace. -/
theorem claim2_amended (resp : StreamingRecognizeResponse) (lvl : ℚ) (t : List Char) :
    (Ev.final t ∈ processResponse resp lvl → t ≠ [] ∧ trim t = t) ∧
    (∀ l, Ev.interim t l ∈ processResponse resp lvl → t ≠ []) := by
  constructor
  · intro hmem
    rw [processResponse_eq] at hmem
    unfold amendedProcessResponse at hmem
    rcases List.mem_append.mp hmem with h | h
    · rcases List.mem_filterMap.mp h with ⟨r, _, heq⟩
      cases halts : r.alternatives with
      | nil => rw [halts] at heq; simp at heq
      | cons alt others =>
        rw [halts] at heq
        by_cases hfin : r.is_final
        · by_cases htr : trim alt.transcript = []
          · simp [hfin, htr] at heq
          · simp [hfin, htr] at heq
            subst heq
            exact ⟨htr, trim_trim alt.transcript⟩
        · simp [hfin] at heq
    · by_cases hj : (partsOf resp.results).flatten = []
      · simp [hj] at h
      · simp [hj] at h
  · intro l hmem
    rw [processResponse_eq] at hmem
    unfold amendedProcessResponse at hmem
    rcases List.mem_append.mp hmem with h | h
    · rcases List.mem_filterMap.mp h with ⟨r, _, heq⟩
      cases halts : r.alternatives with
      | nil => rw [halts] at heq; simp at heq
      | cons alt others =>
        rw [halts] at heq
        by_cases hfin : r.is_final
        · by_cases htr : trim alt.transcript = [] <;> simp [hfin, htr] at heq
        · simp [hfin] at heq
    · by_cases hj : (partsOf resp.results).flatten = []
      · simp [hj] at h
      · simp [hj] at h
        obtain ⟨rfl, rfl⟩ := h
        exact hj

/-- Witness for claim C2's amended theorem at a concrete response. -/
theorem claim2_witness :
    Ev.final ['h', 'i'] ∈ processResponse ⟨[⟨[⟨['h', 'i'], 1⟩], true⟩]⟩ 0 ∧
    (['h', 'i'] ≠ [] ∧ trim ['h', 'i'] = ['h', 'i']) :=
  ⟨by decide, (claim2_amended ⟨[⟨[⟨['h', 'i'], 1⟩], true⟩]⟩ 0 ['h', 'i']).1 (by decide)⟩

/-- Claim C3, counterexample: `_stop_session` joins with
`timeout=5.0` and `main` proceeds regardless; when the join times out
(second command's oracle `false`, e.g. the worker is blocked on the
engine's response stream), the first session's worker thread is still
alive when the second session's worker starts: two pipelines alive at
once. -/
theorem claim3_counterexample :
    countAlive (run initState [(Cmd.start none, true), (Cmd.start none, false)]).1.workers
      = 2 := by
  decide

/-- Claim C3 (amended): a `Start` received while a session is active
signals the previous worker and joins it with a bounded 5-unit timeout
before spawning the new one; PROVIDED every such join completes within
the bound, at most one session worker is alive at any instant.  If a
join times out the old worker is abandoned still running. -/
theorem claim3_amended (cmds : List (Cmd × Bool)) (hall : ∀ p ∈ cmds, p.2 = true) :
    countAlive (run initState cmds).1.workers ≤ 1 :=
  run_inv cmds initState
    ⟨by simp [initState, countAlive], fun w hw => absurd hw (by simp [initState])⟩ hall

/-- Witness for claim C3's amended theorem on a concrete run. -/
theorem claim3_witness :
    (∀ p ∈ [(Cmd.start none, true), (Cmd.stop, true)], p.2 = true) ∧
    countAlive (run initState [(Cmd.start none, true), (Cmd.stop, true)]).1.workers ≤ 1 :=
  ⟨by decide, claim3_amended [(Cmd.start none, true), (Cmd.stop, true)] (by decide)⟩

/-- Claim C4, counterexample: a second `start` while a session is active
(the slot is occupied after the first `start`) performs the implicit
stop but emits NO `stopped` event: the trace of `[start, start]`
contains zero `stopped` events where the claim requires one. -/
theorem claim4_counterexample :
    (run initState [(Cmd.start none, true)]).1.slot = some 0 ∧
    countStopped (run initState [(Cmd.start none, true), (Cmd.start none, true)]).2 = 0 :=
  ⟨by decide, by decide⟩

/-- Claim C4 (amended): exactly one `stopped` event is emitted per
`stop` COMMAND processed (even with no active session); the implicit
stop performed by a second `start` emits no `stopped` event. -/
theorem claim4_amended (cmds : List (Cmd × Bool)) :
    ∀ s : LoopState, countStopped (run s cmds).2 = countStopCmds cmds := by
  induction cmds with
  | nil => intro s; simp [run, countStopped, countStopCmds]
  | cons p rest ih =>
    intro s
    obtain ⟨c, jo⟩ := p
    simp only [run]
    rw [countStopped_append, ih]
    cases c <;>
      (simp [stepCmd, countStopped, countStopCmds, List.filter_cons]; try omega)

/-- Claim C5, counterexample: `main`'s stop handler calls
`_stop_session(stop_event, None, session_thread)` — it never passes the
audio queue, so the sentinel is never enqueued.  After `[start, stop]`
the `stopped` event was emitted but the session's audio queue received
nothing from the stop path. -/
theorem claim5_counterexample :
    countStopped (run initState [(Cmd.start none, true), (Cmd.stop, true)]).2 = 1 ∧
    (run initState [(Cmd.start none, true), (Cmd.stop, true)]).1.workers.map Worker.queue
      = [[]] :=
  ⟨by decide, by decide⟩

/-- Claim C5 (amended): for a `Stop` command with an active session, the
handler sets the session's cancel flag, joins the worker with the
bounded 5-unit timeout, clears the session slot regardless of whether
the join completed, and emits exactly `stopped`; it does NOT enqueue the
sentinel into the Audio Channel (the queue is local to `_run_session`;
the consumer unblocks via its 0.5-unit poll observing the flag). -/
theorem claim5_amended (s : LoopState) (jo : Bool) (i : Nat) (h : s.slot = some i) :
    (stepCmd jo s Cmd.stop).1.slot = none ∧
    (stepCmd jo s Cmd.stop).2 = [Ev.stopped] ∧
    (∀ w ∈ (stepCmd jo s Cmd.stop).1.workers, w.id = i → w.stopSignalled = true) ∧
    (stepCmd jo s Cmd.stop).1.workers.map Worker.queue = s.workers.map Worker.queue ∧
    stopJoinTimeout = 5 := by
  have hstep : stepCmd jo s Cmd.stop
      = ({ stopSessionCall false jo s with slot := none }, [Ev.stopped]) := rfl
  rw [hstep, stopSessionCall_some false jo s i h]
  refine ⟨rfl, rfl, ?_, ?_, rfl⟩
  · intro w hw hid
    rcases List.mem_map.mp hw with ⟨w0, hw0, rfl⟩
    rw [signalWorker_id] at hid
    simp [signalWorker, hid]
  · exact map_queue_signalWorker i jo s.workers

/-- Witness for claim C5's amended theorem, at the state reached after
one `start`. -/
theorem claim5_witness :
    (run initState [(Cmd.start none, true)]).1.slot = some 0 ∧
    ((stepCmd true (run initState [(Cmd.start none, true)]).1 Cmd.stop).1.slot = none ∧
     (stepCmd true (run initState [(Cmd.start none, true)]).1 Cmd.stop).2 = [Ev.stopped] ∧
     (∀ w ∈ (stepCmd true (run initState [(Cmd.start none, true)]).1 Cmd.stop).1.workers,
        w.id = 0 → w.stopSignalled = true) ∧
     (stepCmd true (run initState [(Cmd.start none, true)]).1 Cmd.stop).1.workers.map
        Worker.queue
       = (run initState [(Cmd.start none, true)]).1.workers.map Worker.queue ∧
     stopJoinTimeout = 5) :=
  ⟨by decide, claim5_amended _ true 0 (by decide)⟩

/-- Claim C6, counterexample: `pa.open` (lines 87-94) sits OUTSIDE the
`try` block of `_run_session`; when the audio source fails at open time
the worker thread dies with an unhandled exception and NO `error` event
is emitted, where the claim requires exactly one for any audio-source
failure. -/
theorem claim6_counterexample :
    runSession (Except.error "PaErrorCode -9996: device unavailable") [] none = ([], true) ∧
    countError (runSession (Except.error "PaErrorCode -9996: device unavailable") [] none).1
      = 0 :=
  ⟨rfl, rfl⟩

/-- Claim C6 (amended): a failure raised by the engine (or the audio
stream) inside the streaming loop produces exactly one `error` event
carrying the failure's description, as the last event of the pipeline,
and the worker ends normally; a failure at audio-source open time ends
the worker with no event at all; in either case the command loop is
unaffected and a subsequent `Start` spawns a fresh session. -/
theorem claim6_amended (resps : List (StreamingRecognizeResponse × ℚ))
    (streamErr : Option String) :
    (runSession (Except.ok ()) resps streamErr).2 = false ∧
    countError (runSession (Except.ok ()) resps streamErr).1
      = (match streamErr with | some _ => 1 | none => 0) ∧
    (∀ m, streamErr = some m →
      (runSession (Except.ok ()) resps streamErr).1.getLast? = some (Ev.error m)) ∧
    (∀ msg, runSession (Except.error msg) [] none = ([], true)) ∧
    (∀ (jo : Bool) (s : LoopState) (lang? : Option String),
      (stepCmd jo s (Cmd.start lang?)).1.slot = some s.nextId) := by
  refine ⟨rfl, ?_, ?_, fun msg => rfl, ?_⟩
  · show countError ((resps.map (fun p => processResponse p.1 p.2)).flatten ++
        (match streamErr with | some m => [Ev.error m] | none => [])) = _
    rw [countError_append, flatten_no_error]
    cases streamErr <;> simp [countError]
  · intro m hm
    subst hm
    show ((resps.map (fun p => processResponse p.1 p.2)).flatten
        ++ [Ev.error m]).getLast? = some (Ev.error m)
    simp [List.getLast?_concat]
  · intro jo s lang?
    show some (stopSessionCall false jo s).nextId = some s.nextId
    rw [stopSessionCall_nextId]

/-- Witness for claim C6's amended theorem at a concrete engine
failure. -/
theorem claim6_witness :
    (Option.some "boom" : Option String) = some "boom" ∧
    (runSession (Except.ok ()) [] (some "boom")).1.getLast? = some (Ev.error "boom") :=
  ⟨rfl, (claim6_amended [] (some "boom")).2.2.1 "boom" rfl⟩

/-- Claim C7: `ready` is emitted exactly once, first, before any command
is processed; when the GCP project resolves to the empty string,
`Config.__post_init__` raises and the process dies before emitting
anything. -/
theorem claim7_ready_once (env : List Char) (cacheRead gcloudOut : Option (List Char))
    (cmds : List (Cmd × Bool)) :
    ((resolveGcpProject env cacheRead gcloudOut).project = [] →
      mainRun env cacheRead gcloudOut cmds = Except.error fatalMsg) ∧
    ((resolveGcpProject env cacheRead gcloudOut).project ≠ [] →
      mainRun env cacheRead gcloudOut cmds
        = Except.ok (Ev.ready :: (run initState cmds).2) ∧
      Ev.ready ∉ (run initState cmds).2) := by
  constructor
  · intro h
    unfold mainRun
    rw [if_pos h]
  · intro h
    refine ⟨?_, ready_not_in_run cmds initState⟩
    unfold mainRun
    rw [if_neg h]

/-- Witness for claim C7 at a concrete resolvable configuration. -/
theorem claim7_witness :
    (resolveGcpProject ['p'] none none).project ≠ [] ∧
    (mainRun ['p'] none none [] = Except.ok (Ev.ready :: (run initState []).2) ∧
     Ev.ready ∉ (run initState ([] : List (Cmd × Bool))).2) :=
  ⟨by decide, (claim7_ready_once ['p'] none none []).2 (by decide)⟩

/-- Claim C8: audio-level normalization maps any RMS below 1 to level 0,
RMS 5000 to level 1, is monotone non-decreasing, and always lies in
[0, 1]; and `_rms` computes the root-mean-square of the chunk's 16-bit
little-endian two's-complement PCM samples (the decoded samples lie in
[-32768, 32767] and represent the byte pair `lo + 256 * hi` modulo
2^16). -/
theorem claim8_audio_level :
    (∀ r : ℝ, r < 1 → normalizeRms r = 0) ∧
    normalizeRms 5000 = 1 ∧
    (∀ a b : ℝ, a ≤ b → normalizeRms a ≤ normalizeRms b) ∧
    (∀ r : ℝ, 0 ≤ normalizeRms r ∧ normalizeRms r ≤ 1) ∧
    (∀ data : List Nat, data.length % 2 = 0 → data ≠ [] →
      rmsOf data
        = some (Real.sqrt
            (((decodeSamples data).map (fun s : ℤ => ((s : ℝ)) ^ 2)).sum
              / ((decodeSamples data).length : ℝ)))) ∧
    (∀ lo hi : Nat, lo < 256 → hi < 256 →
      -32768 ≤ toSigned lo hi ∧ toSigned lo hi ≤ 32767 ∧
      toSigned lo hi % 65536 = (lo : ℤ) + 256 * (hi : ℤ)) := by
  have hL : 0 < Real.logb 10 5000 := Real.logb_pos (by norm_num) (by norm_num)
  refine ⟨?_, ?_, ?_, ?_, ?_, ?_⟩
  · intro r hr
    unfold normalizeRms
    rw [if_pos hr]
  · unfold normalizeRms
    rw [if_neg (by norm_num), div_self hL.ne', min_self]
  · intro a b hab
    unfold normalizeRms
    by_cases hb : b < 1
    · rw [if_pos (lt_of_le_of_lt hab hb), if_pos hb]
    · rw [if_neg hb]
      have hb1 : (1 : ℝ) ≤ b := le_of_not_lt hb
      by_cases ha : a < 1
      · rw [if_pos ha]
        exact le_min (by norm_num)
          (div_nonneg (Real.logb_nonneg (by norm_num) hb1) hL.le)
      · rw [if_neg ha]
        have ha1 : (1 : ℝ) ≤ a := le_of_not_lt ha
        refine min_le_min le_rfl ((div_le_div_iff_of_pos_right hL).mpr ?_)
        exact Real.logb_le_logb_of_le (by norm_num) (by linarith) hab
  · intro r
    unfold normalizeRms
    by_cases hr : r < 1
    · rw [if_pos hr]
      norm_num
    · rw [if_neg hr]
      refine ⟨le_min (by norm_num) ?_, min_le_left 1 _⟩
      exact div_nonneg (Real.logb_nonneg (by norm_num) (le_of_not_lt hr)) hL.le
  · intro data he hne
    have hlen : data.length ≠ 0 := fun h0 => hne (List.length_eq_zero.mp h0)
    unfold rmsOf
    rw [if_neg (by omega), if_neg (not_not_intro he)]
    rw [sumSquares_eq, cast_sum_sq, decodeSamples_length]
  · intro lo hi hlo hhi
    unfold toSigned
    split_ifs with hv
    · refine ⟨?_, ?_, ?_⟩ <;> omega
    · refine ⟨?_, ?_, ?_⟩ <;> omega

/-- Witness for claim C8 at concrete inputs. -/
theorem claim8_witness :
    ((1 : ℝ) / 2 < 1 ∧ normalizeRms (1 / 2) = 0) ∧
    ((0 : ℝ) ≤ 5000 ∧ normalizeRms 0 ≤ normalizeRms 5000) ∧
    (([0, 0] : List Nat).length % 2 = 0 ∧ ([0, 0] : List Nat) ≠ [] ∧
      rmsOf [0, 0] = some (Real.sqrt
        (((decodeSamples [0, 0]).map (fun s : ℤ => ((s : ℝ)) ^ 2)).sum
          / ((decodeSamples [0, 0]).length : ℝ)))) ∧
    ((136 : ℕ) < 256 ∧ (19 : ℕ) < 256 ∧
      (-32768 ≤ toSigned 136 19 ∧ toSigned 136 19 ≤ 32767 ∧
        toSigned 136 19 % 65536 = (136 : ℤ) + 256 * (19 : ℤ))) :=
  ⟨⟨by norm_num, claim8_audio_level.1 (1 / 2) (by norm_num)⟩,
   ⟨by norm_num, claim8_audio_level.2.2.1 0 5000 (by norm_num)⟩,
   ⟨by decide, by decide, claim8_audio_level.2.2.2.2.1 [0, 0] (by decide) (by decide)⟩,
   ⟨by decide, by decide, claim8_audio_level.2.2.2.2.2 136 19 (by decide) (by decide)⟩⟩

/-- Claim C9, counterexample: `main` assigns `config.language = language`
on every `start` command (line 189): after a `start` with language
"fr-FR" the configuration's language differs from its startup value, so
the configuration is NOT immutable after startup. -/
theorem claim9_counterexample :
    initState.language = "en-US" ∧
    (run initState [(Cmd.start (some "fr-FR"), true)]).1.language = "fr-FR" ∧
    ("fr-FR" : String) ≠ "en-US" :=
  ⟨rfl, by decide, by decide⟩

/-- Claim C9 (amended): the sample rate, channel count, chunk duration
and model name are never reassigned by any step; every `Start`
overwrites the shared configuration's language; each session worker
reads the shared `config.language` once, when it builds its recognition
config (line 100) — once read, that value never changes for the
worker's lifetime, and no step ever removes a worker or alters an
already-read value.  The fourth conjunct exhibits the race the code
permits: after a timed-out join, the abandoned first worker performs
its line-100 read AFTER a second `Start` reassigned the language, so it
reads "fr-FR" although its own `Start` assigned "de-DE".  The last
conjunct shows the proviso under which the original claim's intent
holds: when every join completes within its bound, any language a
worker reads is exactly the one assigned by the `Start` that spawned
it. -/
theorem claim9_amended :
    (∀ (s : LoopState) (a : Act),
      (stepAct s a).1.sample_rate = s.sample_rate ∧
      (stepAct s a).1.audio_channels = s.audio_channels ∧
      (stepAct s a).1.chunk_duration_ms = s.chunk_duration_ms ∧
      (stepAct s a).1.model = s.model) ∧
    (∀ (jo : Bool) (s : LoopState) (lang? : Option String),
      (stepCmd jo s (Cmd.start lang?)).1.language = lang?.getD s.language) ∧
    (∀ (s : LoopState) (a : Act), ∃ g ext,
      (stepAct s a).1.workers = s.workers.map g ++ ext ∧
      ∀ w : Worker, (g w).startLanguage = w.startLanguage ∧
        ∀ l, w.langCaptured = some l → (g w).langCaptured = some l) ∧
    ((runActs initState [Act.cmd (Cmd.start (some "de-DE")) true,
        Act.cmd (Cmd.start (some "fr-FR")) false,
        Act.capture 0]).1.workers.map (fun w => (w.startLanguage, w.langCaptured))
      = [("de-DE", some "fr-FR"), ("fr-FR", none)]) ∧
    (∀ acts : List Act, (∀ a ∈ acts, joinOkOf a = true) →
      ∀ w ∈ (runActs initState acts).1.workers,
        w.langCaptured = none ∨ w.langCaptured = some w.startLanguage) := by
  refine ⟨?_, ?_, ?_, by decide, ?_⟩
  · intro s a
    cases a with
    | capture i => exact ⟨rfl, rfl, rfl, rfl⟩
    | cmd c jo =>
      cases c with
      | other => exact ⟨rfl, rfl, rfl, rfl⟩
      | stop =>
        have hstep : stepAct s (Act.cmd Cmd.stop jo)
            = ({ stopSessionCall false jo s with slot := none }, [Ev.stopped]) := rfl
        rw [hstep]
        exact ⟨stopSessionCall_sample_rate false jo s,
          stopSessionCall_audio_channels false jo s,
          stopSessionCall_chunk_duration_ms false jo s,
          stopSessionCall_model false jo s⟩
      | start lang? =>
        exact ⟨stopSessionCall_sample_rate false jo s,
          stopSessionCall_audio_channels false jo s,
          stopSessionCall_chunk_duration_ms false jo s,
          stopSessionCall_model false jo s⟩
  · intro jo s lang?
    show lang?.getD (stopSessionCall false jo s).language = lang?.getD s.language
    rw [stopSessionCall_language]
  · intro s a
    cases a with
    | capture i =>
      refine ⟨captureWorker i s.language, [], by simp [stepAct], ?_⟩
      intro w
      exact ⟨captureWorker_startLanguage i s.language w,
        fun l hsome => captureWorker_keeps_some i s.language w l hsome⟩
    | cmd c jo =>
      cases c with
      | other =>
        exact ⟨id, [], by simp [stepAct, stepCmd], fun w => ⟨rfl, fun l hsome => hsome⟩⟩
      | stop =>
        cases hslot : s.slot with
        | none =>
          refine ⟨id, [], ?_, fun w => ⟨rfl, fun l hsome => hsome⟩⟩
          simp only [stepAct, stepCmd]
          rw [stopSessionCall_none false jo s hslot]
          simp
        | some i =>
          refine ⟨signalWorker i false jo, [], ?_, ?_⟩
          · simp only [stepAct, stepCmd]
            rw [stopSessionCall_some false jo s i hslot]
            simp
          · intro w
            exact ⟨signalWorker_startLanguage i false jo w,
              fun l hsome => by rw [signalWorker_langCaptured]; exact hsome⟩
      | start lang? =>
        cases hslot : s.slot with
        | none =>
          refine ⟨id, [⟨s.nextId, lang?.getD s.language, none, false, true, []⟩],
            ?_, fun w => ⟨rfl, fun l hsome => hsome⟩⟩
          simp only [stepAct, stepCmd]
          rw [stopSessionCall_none false jo s hslot]
          simp
        | some i =>
          refine ⟨signalWorker i false jo,
            [⟨s.nextId, lang?.getD s.language, none, false, true, []⟩], ?_, ?_⟩
          · simp only [stepAct, stepCmd]
            rw [stopSessionCall_some false jo s i hslot]
          · intro w
            exact ⟨signalWorker_startLanguage i false jo w,
              fun l hsome => by rw [signalWorker_langCaptured]; exact hsome⟩
  · intro acts hall
    have h := runActs_inv9 acts initState
      ⟨fun w hw => absurd hw (by simp [initState]),
       fun w hw => absurd hw (by simp [initState])⟩ hall
    exact h.2

/-- Witness for claim C9's amended theorem on an all-joins-complete run
in which the worker performs its line-100 read. -/
theorem claim9_witness :
    (∀ a ∈ [Act.cmd (Cmd.start (some "nl-NL")) true, Act.capture 0], joinOkOf a = true) ∧
    (⟨0, "nl-NL", some "nl-NL", false, true, []⟩ : Worker)
      ∈ (runActs initState
          [Act.cmd (Cmd.start (some "nl-NL")) true, Act.capture 0]).1.workers ∧
    ((⟨0, "nl-NL", some "nl-NL", false, true, []⟩ : Worker).langCaptured = none ∨
     (⟨0, "nl-NL", some "nl-NL", false, true, []⟩ : Worker).langCaptured
       = some (⟨0, "nl-NL", some "nl-NL", false, true, []⟩ : Worker).startLanguage) :=
  ⟨by decide, by decide,
   claim9_amended.2.2.2.2 [Act.cmd (Cmd.start (some "nl-NL")) true, Act.capture 0]
     (by decide) _ (by decide)⟩

/-- Claim C10: GCP project resolution precedence — a non-empty
environment variable wins without touching cache or gcloud; otherwise a
cache file whose trimmed content is non-empty wins without gcloud;
otherwise gcloud's trimmed output is used and written back to the cache
exactly when non-empty; a missing gcloud leaves the empty project; and
`Config` raises exactly when the resolved project is empty. -/
theorem claim10_resolution (env : List Char) (cacheRead gcloudOut : Option (List Char)) :
    (env ≠ [] → resolveGcpProject env cacheRead gcloudOut = ⟨env, false, false, none⟩) ∧
    (∀ content, env = [] → cacheRead = some content → trim content ≠ [] →
      resolveGcpProject env cacheRead gcloudOut = ⟨trim content, true, false, none⟩) ∧
    (env = [] → (∀ content, cacheRead = some content → trim content = []) →
      ∀ out, gcloudOut = some out →
        resolveGcpProject env cacheRead gcloudOut
          = ⟨trim out, true, true, if trim out = [] then none else some (trim out)⟩) ∧
    (env = [] → (∀ content, cacheRead = some content → trim content = []) →
      gcloudOut = none →
      resolveGcpProject env cacheRead gcloudOut = ⟨[], true, true, none⟩) ∧
    (∀ p : List Char, configRaises p = true ↔ p = []) := by
  refine ⟨?_, ?_, ?_, ?_, ?_⟩
  · intro h
    unfold resolveGcpProject
    rw [if_pos h]
  · intro content henv hc htr
    subst henv; subst hc
    unfold resolveGcpProject
    simp [htr]
  · intro henv hcache out hout
    subst henv; subst hout
    unfold resolveGcpProject gcloudResolve
    cases cacheRead with
    | none => simp
    | some content => simp [hcache content rfl]
  · intro henv hcache hout
    subst henv; subst hout
    unfold resolveGcpProject gcloudResolve
    cases cacheRead with
    | none => simp
    | some content => simp [hcache content rfl]
  · intro p
    cases p <;> simp [configRaises]

/-- Witness for claim C10 at concrete inputs. -/
theorem claim10_witness :
    (['p'] : List Char) ≠ [] ∧
    resolveGcpProject ['p'] none none = ⟨['p'], false, false, none⟩ ∧
    (configRaises [] = true ↔ ([] : List Char) = []) :=
  ⟨by decide, (claim10_resolution ['p'] none none).1 (by decide),
   (claim10_resolution ['p'] none none).2.2.2.2 []⟩

end DictateApp
